import Mathlib

/-!
Verification of the fingerprint cache (`Mem0Cache`) and the rate-limited
provider rotator (`AIProviderRotation`) of the Virtual Pull-Up app
(`src/OrbitV3Full/Resources/Empire/01_VirtualPullUp/app.py`).

Python dictionaries are modelled as insertion-ordered association lists
(`List (String × α)`) with unique keys; `dictGet`, `dictInsert` and
`dictErase` mirror `d[k]`, `d[k] = v` and `del d[k]`.  `datetime.now()`
values are modelled as explicit `Nat` timestamps (seconds) passed to each
operation.  The value type stored in the cache (`Dict[str, Any]` holding
`FactCheck` objects in the source) is a type parameter `α`.
-/

set_option maxHeartbeats 1000000

namespace OrbitV3

/-- Lookup in a Python-dict-like association list (`d[k]`, first matching
key; keys are unique in every list built by `dictInsert`). -/
def dictGet {α : Type} (k : String) : List (String × α) → Option α
  | [] => none
  | (k', v) :: rest => if k' = k then some v else dictGet k rest

/-- `d[k] = v`: update the first occurrence of `k` in place (keeping its
position, as Python dicts do), or append `(k, v)` if `k` is absent. -/
def dictInsert {α : Type} (k : String) (v : α) : List (String × α) → List (String × α)
  | [] => [(k, v)]
  | (k', v') :: rest => if k' = k then (k, v) :: rest else (k', v') :: dictInsert k v rest

/-- `del d[k]`: remove the first occurrence of key `k` (a no-op when `k` is
absent; in Python `del` would raise `KeyError`, which never happens on the
reachable states considered below because the key maps stay in sync). -/
def dictErase {α : Type} (k : String) : List (String × α) → List (String × α)
  | [] => []
  | (k', v') :: rest => if k' = k then rest else (k', v') :: dictErase k rest

/-- The key list of a dict, in insertion order (`list(d.keys())`). -/
def keysOf {α : Type} (l : List (String × α)) : List String := l.map Prod.fst

@[simp] theorem keysOf_nil {α : Type} : keysOf ([] : List (String × α)) = [] := rfl

@[simp] theorem keysOf_cons {α : Type} (k : String) (v : α) (l : List (String × α)) :
    keysOf ((k, v) :: l) = k :: keysOf l := rfl

theorem length_keysOf {α : Type} (l : List (String × α)) : (keysOf l).length = l.length := by
  simp [keysOf]

theorem dictGet_insert_same {α : Type} (k : String) (v : α) (l : List (String × α)) :
    dictGet k (dictInsert k v l) = some v := by
  induction l with
  | nil => simp [dictGet, dictInsert]
  | cons hd tl ih =>
    obtain ⟨k', v'⟩ := hd
    by_cases h : k' = k
    · simp [dictGet, dictInsert, h]
    · simp [dictGet, dictInsert, h, ih]

theorem dictGet_insert_ne {α : Type} (k k' : String) (v : α) (l : List (String × α))
    (h : k' ≠ k) : dictGet k' (dictInsert k v l) = dictGet k' l := by
  have h' : ¬ k = k' := fun e => h e.symm
  induction l with
  | nil => simp [dictGet, dictInsert, h']
  | cons hd tl ih =>
    obtain ⟨k'', v''⟩ := hd
    by_cases hk : k'' = k
    · subst hk
      simp [dictGet, dictInsert, h']
    · simp [dictGet, dictInsert, hk, ih]

theorem keys_dictInsert_mem {α : Type} (k : String) (v : α) (l : List (String × α))
    (h : k ∈ keysOf l) : keysOf (dictInsert k v l) = keysOf l := by
  induction l with
  | nil => simp at h
  | cons hd tl ih =>
    obtain ⟨k', v'⟩ := hd
    by_cases hk : k' = k
    · simp [dictInsert, hk]
    · rw [keysOf_cons] at h
      rcases List.mem_cons.mp h with h | h
      · exact absurd h.symm hk
      · simp [dictInsert, hk, ih h]

theorem keys_dictInsert_not_mem {α : Type} (k : String) (v : α) (l : List (String × α))
    (h : k ∉ keysOf l) : keysOf (dictInsert k v l) = keysOf l ++ [k] := by
  induction l with
  | nil => simp [dictInsert]
  | cons hd tl ih =>
    obtain ⟨k', v'⟩ := hd
    rw [keysOf_cons] at h
    have h1 : ¬ k' = k := fun e => h (List.mem_cons.mpr (Or.inl e.symm))
    have h2 : k ∉ keysOf tl := fun e => h (List.mem_cons.mpr (Or.inr e))
    simp [dictInsert, h1, ih h2]

theorem length_dictInsert_mem {α : Type} (k : String) (v : α) (l : List (String × α))
    (h : k ∈ keysOf l) : (dictInsert k v l).length = l.length := by
  have hkeys := keys_dictInsert_mem k v l h
  have h1 := length_keysOf (dictInsert k v l)
  have h2 := length_keysOf l
  rw [hkeys] at h1
  omega

theorem length_dictInsert_le {α : Type} (k : String) (v : α) (l : List (String × α)) :
    (dictInsert k v l).length ≤ l.length + 1 := by
  induction l with
  | nil => simp [dictInsert]
  | cons hd tl ih =>
    obtain ⟨k', v'⟩ := hd
    by_cases hk : k' = k
    · simp [dictInsert, hk]
    · simp only [dictInsert, if_neg hk, List.length_cons]
      omega

theorem keys_dictErase {α : Type} (k : String) (l : List (String × α)) :
    keysOf (dictErase k l) = (keysOf l).erase k := by
  induction l with
  | nil => simp [dictErase]
  | cons hd tl ih =>
    obtain ⟨k', v'⟩ := hd
    by_cases hk : k' = k
    · simp [dictErase, hk, List.erase_cons]
    · simp [dictErase, hk, List.erase_cons, ih]

theorem length_dictErase_mem {α : Type} (k : String) (l : List (String × α))
    (h : k ∈ keysOf l) : (dictErase k l).length + 1 = l.length := by
  induction l with
  | nil => simp at h
  | cons hd tl ih =>
    obtain ⟨k', v'⟩ := hd
    by_cases hk : k' = k
    · simp [dictErase, hk]
    · rw [keysOf_cons] at h
      rcases List.mem_cons.mp h with h | h
      · exact absurd h.symm hk
      · have := ih h
        simp only [dictErase, if_neg hk, List.length_cons]
        omega

theorem dictErase_of_not_mem {α : Type} (k : String) (l : List (String × α))
    (h : k ∉ keysOf l) : dictErase k l = l := by
  induction l with
  | nil => rfl
  | cons hd tl ih =>
    obtain ⟨k', v'⟩ := hd
    rw [keysOf_cons] at h
    have h1 : ¬ k' = k := fun e => h (List.mem_cons.mpr (Or.inl e.symm))
    have h2 : k ∉ keysOf tl := fun e => h (List.mem_cons.mpr (Or.inr e))
    simp [dictErase, h1, ih h2]

theorem dictGet_eq_none_of_not_mem {α : Type} (k : String) (l : List (String × α))
    (h : k ∉ keysOf l) : dictGet k l = none := by
  induction l with
  | nil => rfl
  | cons hd tl ih =>
    obtain ⟨k', v'⟩ := hd
    rw [keysOf_cons] at h
    have h1 : ¬ k' = k := fun e => h (List.mem_cons.mpr (Or.inl e.symm))
    have h2 : k ∉ keysOf tl := fun e => h (List.mem_cons.mpr (Or.inr e))
    simp [dictGet, h1, ih h2]

theorem mem_of_dictGet_some {α : Type} (k : String) (v : α) (l : List (String × α))
    (h : dictGet k l = some v) : k ∈ keysOf l := by
  induction l with
  | nil => simp [dictGet] at h
  | cons hd tl ih =>
    obtain ⟨k', v'⟩ := hd
    by_cases hk : k' = k
    · rw [keysOf_cons]
      exact List.mem_cons.mpr (Or.inl hk.symm)
    · simp only [dictGet, if_neg hk] at h
      rw [keysOf_cons]
      exact List.mem_cons.mpr (Or.inr (ih h))

theorem dictInsert_eq_self {α : Type} (k : String) (v : α) (l : List (String × α))
    (h : dictGet k l = some v) : dictInsert k v l = l := by
  induction l with
  | nil => simp [dictGet] at h
  | cons hd tl ih =>
    obtain ⟨k', v'⟩ := hd
    by_cases hk : k' = k
    · simp only [dictGet, if_pos hk] at h
      have : v' = v := Option.some.inj h
      simp [dictInsert, hk, this]
    · simp only [dictGet, if_neg hk] at h
      simp [dictInsert, hk, ih h]

theorem mem_keys_dictInsert {α : Type} (k : String) (v : α) (l : List (String × α)) :
    k ∈ keysOf (dictInsert k v l) := by
  by_cases h : k ∈ keysOf l
  · rw [keys_dictInsert_mem k v l h]
    exact h
  · rw [keys_dictInsert_not_mem k v l h]
    simp

/-! ## The `Mem0Cache` fingerprint cache (app.py lines 100-135) -/

structure Mem0Cache (α : Type) where
  cache : List (String × α)
  max_size : Nat
  access_times : List (String × Nat)
  deriving DecidableEq

/-- `Mem0Cache.__init__(max_size)`: both dicts start empty. -/
def Mem0Cache.empty (α : Type) (max_size : Nat) : Mem0Cache α :=
  { cache := [], max_size := max_size, access_times := [] }

/-- Python `str.lower()`, character by character (structural recursion so
that the kernel can evaluate it; Lean's builtin `String.toLower` is
defined by well-founded recursion and does not reduce). -/
def lowerPy (s : String) : String :=
  String.mk (s.data.map Char.toLower)

/-- Python `str.strip()`: drop whitespace from both ends. -/
def stripPy (s : String) : String :=
  String.mk (((s.data.dropWhile Char.isWhitespace).reverse.dropWhile
    Char.isWhitespace).reverse)

/-- `Mem0Cache._generate_key`: `claim.lower().strip()` hashed with md5.
The md5 hex digest of the normalized string is modelled by the normalized
string itself (the spec treats the hash as an injective fingerprint of the
normalized text; collisions are out of scope per spec §9). -/
def _generate_key (claim : String) : String :=
  stripPy (lowerPy claim)

/-- `Mem0Cache.get`: on hit, refresh `access_times[key]` and return the
stored value; on miss return `None` and leave the state untouched. -/
def Mem0Cache.get {α : Type} (c : Mem0Cache α) (claim : String) (now : Nat) :
    Option α × Mem0Cache α :=
  let key := _generate_key claim
  match dictGet key c.cache with
  | some v => (some v, { c with access_times := dictInsert key now c.access_times })
  | none => (none, c)

/-- `min(self.access_times, key=self.access_times.get)`: the first entry
(in insertion order) with the smallest timestamp, as Python's `min`
returns the first minimal element. -/
def oldestEntry : List (String × Nat) → Option (String × Nat)
  | [] => none
  | (k, t) :: rest =>
    match oldestEntry rest with
    | none => some (k, t)
    | some (k', t') => if t ≤ t' then some (k, t) else some (k', t')

/-- `Mem0Cache._evict_oldest`: remove the least recently accessed entry
from both dicts (no-op when `access_times` is empty). -/
def Mem0Cache._evict_oldest {α : Type} (c : Mem0Cache α) : Mem0Cache α :=
  match oldestEntry c.access_times with
  | none => c
  | some (k, _) =>
    { c with cache := dictErase k c.cache, access_times := dictErase k c.access_times }

/-- `Mem0Cache.set`: if `len(self.cache) >= self.max_size`, evict the
oldest entry first (note: before looking at the key), then store the value
and refresh the timestamp. -/
def Mem0Cache.set {α : Type} (c : Mem0Cache α) (claim : String) (fact : α) (now : Nat) :
    Mem0Cache α :=
  let c1 := if c.max_size ≤ c.cache.length then c._evict_oldest else c
  let key := _generate_key claim
  { c1 with cache := dictInsert key fact c1.cache,
            access_times := dictInsert key now c1.access_times }

/-- States reachable from a freshly constructed cache by any interleaving
of `get` and `set` calls with arbitrary arguments and timestamps. -/
inductive Mem0Cache.Reachable {α : Type} : Mem0Cache α → Prop
  | empty (max_size : Nat) : Reachable (Mem0Cache.empty α max_size)
  | get (c : Mem0Cache α) (claim : String) (now : Nat) :
      Reachable c → Reachable (c.get claim now).2
  | set (c : Mem0Cache α) (claim : String) (fact : α) (now : Nat) :
      Reachable c → Reachable (c.set claim fact now)

/-- Well-formedness invariant of a cache state: the two dicts have the
same keys in the same order, the keys are distinct, and (for a positive
capacity) the entry count is bounded by `max_size`. -/
def Mem0Cache.WF {α : Type} (c : Mem0Cache α) : Prop :=
  keysOf c.cache = keysOf c.access_times ∧
  (keysOf c.cache).Nodup ∧
  (1 ≤ c.max_size → c.cache.length ≤ c.max_size)

theorem oldestEntry_eq_none {l : List (String × Nat)} (h : oldestEntry l = none) :
    l = [] := by
  cases l with
  | nil => rfl
  | cons hd tl =>
    obtain ⟨k, t⟩ := hd
    rcases hrec : oldestEntry tl with _ | ⟨k', t'⟩
    · simp [oldestEntry, hrec] at h
    · simp only [oldestEntry, hrec] at h
      by_cases ht : t ≤ t' <;> simp [ht] at h

theorem oldestEntry_mem {l : List (String × Nat)} {k : String} {t : Nat}
    (h : oldestEntry l = some (k, t)) : (k, t) ∈ l := by
  induction l generalizing k t with
  | nil => simp [oldestEntry] at h
  | cons hd tl ih =>
    obtain ⟨k', t'⟩ := hd
    rcases hrec : oldestEntry tl with _ | ⟨k'', t''⟩
    · simp only [oldestEntry, hrec] at h
      exact List.mem_cons.mpr (Or.inl (Option.some.inj h).symm)
    · simp only [oldestEntry, hrec] at h
      by_cases ht : t' ≤ t''
      · rw [if_pos ht] at h
        exact List.mem_cons.mpr (Or.inl (Option.some.inj h).symm)
      · rw [if_neg ht] at h
        exact List.mem_cons.mpr (Or.inr (ih ((Option.some.inj h) ▸ hrec)))

theorem oldestEntry_min {l : List (String × Nat)} {k : String} {t : Nat}
    (h : oldestEntry l = some (k, t)) : ∀ q ∈ l, t ≤ q.2 := by
  induction l generalizing k t with
  | nil => simp [oldestEntry] at h
  | cons hd tl ih =>
    obtain ⟨k', t'⟩ := hd
    intro q hq
    rcases hrec : oldestEntry tl with _ | ⟨k'', t''⟩
    · have htl : tl = [] := oldestEntry_eq_none hrec
      subst htl
      simp only [oldestEntry, hrec] at h
      have ht2 : t' = t := congrArg Prod.snd (Option.some.inj h)
      rcases List.mem_cons.mp hq with hq | hq
      · subst hq
        show t ≤ t'
        omega
      · simp at hq
    · simp only [oldestEntry, hrec] at h
      by_cases ht : t' ≤ t''
      · rw [if_pos ht] at h
        have ht2 : t' = t := congrArg Prod.snd (Option.some.inj h)
        rcases List.mem_cons.mp hq with hq | hq
        · subst hq
          show t ≤ t'
          omega
        · have hmin := ih hrec q hq
          omega
      · rw [if_neg ht] at h
        have ht2 : t'' = t := congrArg Prod.snd (Option.some.inj h)
        rcases List.mem_cons.mp hq with hq | hq
        · subst hq
          show t ≤ t'
          have : t'' < t' := Nat.lt_of_not_le ht
          omega
        · exact ih ((Option.some.inj h) ▸ hrec) q hq

/-- `_evict_oldest` leaves `max_size` unchanged. -/
theorem Mem0Cache.max_size_evict {α : Type} (c : Mem0Cache α) :
    c._evict_oldest.max_size = c.max_size := by
  unfold Mem0Cache._evict_oldest
  rcases oldestEntry c.access_times with _ | ⟨k, t⟩ <;> rfl

/-- `set` leaves `max_size` unchanged. -/
theorem Mem0Cache.max_size_set {α : Type} (c : Mem0Cache α) (claim : String) (fact : α)
    (now : Nat) : (c.set claim fact now).max_size = c.max_size := by
  unfold Mem0Cache.set
  by_cases hc : c.max_size ≤ c.cache.length
  · simp only [if_pos hc]
    exact c.max_size_evict
  · simp only [if_neg hc]

/-- `get` leaves `cache` unchanged. -/
theorem Mem0Cache.get_cache {α : Type} (c : Mem0Cache α) (claim : String) (now : Nat) :
    (c.get claim now).2.cache = c.cache := by
  rcases hg : dictGet (_generate_key claim) c.cache with _ | v <;>
    simp [Mem0Cache.get, hg]

/-- `get` leaves `max_size` unchanged. -/
theorem Mem0Cache.get_max_size {α : Type} (c : Mem0Cache α) (claim : String) (now : Nat) :
    (c.get claim now).2.max_size = c.max_size := by
  rcases hg : dictGet (_generate_key claim) c.cache with _ | v <;>
    simp [Mem0Cache.get, hg]

theorem Mem0Cache.evict_cache_of_oldest {α : Type} (c : Mem0Cache α) (k : String) (t : Nat)
    (h : oldestEntry c.access_times = some (k, t)) :
    c._evict_oldest.cache = dictErase k c.cache := by
  simp [Mem0Cache._evict_oldest, h]

theorem Mem0Cache.evict_times_of_oldest {α : Type} (c : Mem0Cache α) (k : String) (t : Nat)
    (h : oldestEntry c.access_times = some (k, t)) :
    c._evict_oldest.access_times = dictErase k c.access_times := by
  simp [Mem0Cache._evict_oldest, h]

theorem Mem0Cache.evict_of_none {α : Type} (c : Mem0Cache α)
    (h : oldestEntry c.access_times = none) : c._evict_oldest = c := by
  simp [Mem0Cache._evict_oldest, h]

theorem Mem0Cache.set_cache_of_ge {α : Type} (c : Mem0Cache α) (claim : String) (fact : α)
    (now : Nat) (h : c.max_size ≤ c.cache.length) :
    (c.set claim fact now).cache =
      dictInsert (_generate_key claim) fact c._evict_oldest.cache := by
  simp [Mem0Cache.set, if_pos h]

theorem Mem0Cache.set_times_of_ge {α : Type} (c : Mem0Cache α) (claim : String) (fact : α)
    (now : Nat) (h : c.max_size ≤ c.cache.length) :
    (c.set claim fact now).access_times =
      dictInsert (_generate_key claim) now c._evict_oldest.access_times := by
  simp [Mem0Cache.set, if_pos h]

theorem Mem0Cache.set_cache_of_lt {α : Type} (c : Mem0Cache α) (claim : String) (fact : α)
    (now : Nat) (h : ¬ c.max_size ≤ c.cache.length) :
    (c.set claim fact now).cache = dictInsert (_generate_key claim) fact c.cache := by
  simp [Mem0Cache.set, if_neg h]

theorem Mem0Cache.set_times_of_lt {α : Type} (c : Mem0Cache α) (claim : String) (fact : α)
    (now : Nat) (h : ¬ c.max_size ≤ c.cache.length) :
    (c.set claim fact now).access_times = dictInsert (_generate_key claim) now c.access_times := by
  simp [Mem0Cache.set, if_neg h]

/-- Inserting the same key into both dicts preserves key synchronization
and key distinctness. -/
theorem wf_insert_keys {α : Type} (cch : List (String × α)) (ats : List (String × Nat))
    (key : String) (fact : α) (now : Nat) (hkeys : keysOf cch = keysOf ats)
    (hnodup : (keysOf cch).Nodup) :
    keysOf (dictInsert key fact cch) = keysOf (dictInsert key now ats) ∧
    (keysOf (dictInsert key fact cch)).Nodup := by
  by_cases hmem : key ∈ keysOf cch
  · have hmem' : key ∈ keysOf ats := hkeys ▸ hmem
    rw [keys_dictInsert_mem key fact cch hmem, keys_dictInsert_mem key now ats hmem']
    exact ⟨hkeys, hnodup⟩
  · have hmem' : key ∉ keysOf ats := fun h => hmem (hkeys ▸ h)
    rw [keys_dictInsert_not_mem key fact cch hmem, keys_dictInsert_not_mem key now ats hmem']
    constructor
    · rw [hkeys]
    · simp [List.nodup_append, hnodup, hmem]

/-- Eviction preserves well-formedness. -/
theorem Mem0Cache.wf_evict {α : Type} (c : Mem0Cache α) (h : c.WF) :
    c._evict_oldest.WF := by
  obtain ⟨hkeys, hnodup, hsize⟩ := h
  rcases ho : oldestEntry c.access_times with _ | ⟨k, t⟩
  · rw [c.evict_of_none ho]
    exact ⟨hkeys, hnodup, hsize⟩
  · refine ⟨?_, ?_, ?_⟩
    · rw [c.evict_cache_of_oldest k t ho, c.evict_times_of_oldest k t ho,
        keys_dictErase, keys_dictErase, hkeys]
    · rw [c.evict_cache_of_oldest k t ho, keys_dictErase]
      exact hnodup.erase k
    · intro hm
      rw [c.max_size_evict] at hm ⊢
      rw [c.evict_cache_of_oldest k t ho]
      have h1 : (dictErase k c.cache).length ≤ c.cache.length := by
        by_cases hmem : k ∈ keysOf c.cache
        · have := length_dictErase_mem k c.cache hmem
          omega
        · rw [dictErase_of_not_mem k c.cache hmem]
      exact le_trans h1 (hsize hm)

/-- `set` preserves well-formedness. -/
theorem Mem0Cache.wf_set {α : Type} (c : Mem0Cache α) (claim : String) (fact : α)
    (now : Nat) (h : c.WF) : (c.set claim fact now).WF := by
  by_cases hc : c.max_size ≤ c.cache.length
  · have hev := c.wf_evict h
    obtain ⟨hkeys1, hnodup1, hsize1⟩ := hev
    have hk := wf_insert_keys c._evict_oldest.cache c._evict_oldest.access_times
      (_generate_key claim) fact now hkeys1 hnodup1
    refine ⟨?_, ?_, ?_⟩
    · rw [c.set_cache_of_ge claim fact now hc, c.set_times_of_ge claim fact now hc]
      exact hk.1
    · rw [c.set_cache_of_ge claim fact now hc]
      exact hk.2
    · intro hm
      rw [c.max_size_set claim fact now] at hm ⊢
      rw [c.set_cache_of_ge claim fact now hc]
      -- at capacity: the eviction strictly shrank the cache
      have hlen : c.cache.length = c.max_size := le_antisymm (h.2.2 hm) hc
      have hne : c.access_times ≠ [] := by
        intro hnil
        have hk0 := h.1
        rw [hnil] at hk0
        simp only [keysOf_nil] at hk0
        have h2 := length_keysOf c.cache
        rw [hk0] at h2
        simp at h2
        omega
      rcases ho : oldestEntry c.access_times with _ | ⟨k, t⟩
      · exact absurd (oldestEntry_eq_none ho) hne
      · have hkmem : k ∈ keysOf c.access_times :=
          List.mem_map_of_mem Prod.fst (oldestEntry_mem ho)
        have hkmem' : k ∈ keysOf c.cache := by rw [h.1]; exact hkmem
        have hlen1 : c._evict_oldest.cache.length + 1 = c.max_size := by
          rw [c.evict_cache_of_oldest k t ho, length_dictErase_mem k c.cache hkmem', hlen]
        have := length_dictInsert_le (_generate_key claim) fact c._evict_oldest.cache
        omega
  · obtain ⟨hkeys, hnodup, hsize⟩ := h
    have hk := wf_insert_keys c.cache c.access_times (_generate_key claim) fact now
      hkeys hnodup
    refine ⟨?_, ?_, ?_⟩
    · rw [c.set_cache_of_lt claim fact now hc, c.set_times_of_lt claim fact now hc]
      exact hk.1
    · rw [c.set_cache_of_lt claim fact now hc]
      exact hk.2
    · intro hm
      rw [c.max_size_set claim fact now] at hm ⊢
      rw [c.set_cache_of_lt claim fact now hc]
      have := length_dictInsert_le (_generate_key claim) fact c.cache
      omega

/-- `get` preserves well-formedness. -/
theorem Mem0Cache.wf_get {α : Type} (c : Mem0Cache α) (claim : String) (now : Nat)
    (h : c.WF) : (c.get claim now).2.WF := by
  obtain ⟨hkeys, hnodup, hsize⟩ := h
  rcases hg : dictGet (_generate_key claim) c.cache with _ | v
  · simp only [Mem0Cache.get, hg]
    exact ⟨hkeys, hnodup, hsize⟩
  · have hmem : _generate_key claim ∈ keysOf c.cache :=
      mem_of_dictGet_some _ v c.cache hg
    have hmem' : _generate_key claim ∈ keysOf c.access_times := hkeys ▸ hmem
    simp only [Mem0Cache.get, hg]
    refine ⟨?_, hnodup, hsize⟩
    show keysOf c.cache = keysOf (dictInsert (_generate_key claim) now c.access_times)
    rw [keys_dictInsert_mem _ now c.access_times hmem', hkeys]

/-- Every reachable cache state is well-formed. -/
theorem Mem0Cache.wf_reachable {α : Type} (c : Mem0Cache α) (h : c.Reachable) : c.WF := by
  induction h with
  | empty max_size => exact ⟨rfl, List.nodup_nil, fun _ => by simp [Mem0Cache.empty]⟩
  | get c claim now _ ih => exact c.wf_get claim now ih
  | set c claim fact now _ ih => exact c.wf_set claim fact now ih

/-! ## The `AIProviderRotation` provider rotator (app.py lines 158-250)

Rate limits (`self.rate_limits`) hold `60`, `100` and `float("inf")`; an
infinite limit is modelled as `none : Option Nat`. -/

structure AIProviderRotation where
  providers : List String
  current_index : Nat
  request_counts : List (String × Nat)
  rate_limits : List (String × Option Nat)
  reset_time : Nat
  deriving DecidableEq

/-- `AIProviderRotation.__init__`: fixed provider order, zeroed counters,
the free-tier limits, and `reset_time = datetime.now()` (the construction
time is the `now` argument). -/
def AIProviderRotation.init (now : Nat) : AIProviderRotation :=
  { providers := ["gemini", "grok", "local"]
    current_index := 0
    request_counts := ["gemini", "grok", "local"].map (fun p => (p, 0))
    rate_limits := [("gemini", some 60), ("grok", some 100), ("local", none)]
    reset_time := now }

/-- `n < limit` where the limit may be `float("inf")` (`none`). -/
def countLt (n : Nat) : Option Nat → Bool
  | none => true
  | some m => decide (n < m)

/-- `self.request_counts[provider]`.  On every state reachable from the
constructor the key is present; the default `0` is never used there. -/
def count_of (s : AIProviderRotation) (p : String) : Nat :=
  (dictGet p s.request_counts).getD 0

/-- `self.rate_limits[provider]`.  On every state reachable from the
constructor the key is present; the default (`some 0`, never available)
is never used there. -/
def limit_of (s : AIProviderRotation) (p : String) : Option Nat :=
  (dictGet p s.rate_limits).getD (some 0)

/-- The availability check `self.request_counts[provider] < self.rate_limits[provider]`. -/
def available (s : AIProviderRotation) (p : String) : Bool :=
  countLt (count_of s p) (limit_of s p)

/-- `AIProviderRotation._reset_if_needed`: if more than one minute has
passed since `reset_time`, zero every counter and set `reset_time` to the
current time. -/
def AIProviderRotation._reset_if_needed (s : AIProviderRotation) (now : Nat) :
    AIProviderRotation :=
  if 60 < now - s.reset_time then
    { s with request_counts := s.providers.map (fun p => (p, 0)),
             reset_time := now }
  else s

/-- The `for _ in range(len(self.providers))` loop body of `get_provider`:
look at `providers[current_index]`; if it is available, increment its
counter and return it (without moving `current_index`); otherwise advance
`current_index` cyclically and continue.  After the loop, fall back to
`"local"`. -/
def get_provider_loop : Nat → AIProviderRotation → String × AIProviderRotation
  | 0, s => ("local", s)
  | fuel + 1, s =>
    let provider := s.providers.getD s.current_index ""
    if available s provider then
      (provider,
        { s with request_counts := dictInsert provider (count_of s provider + 1) s.request_counts })
    else
      get_provider_loop fuel { s with current_index := (s.current_index + 1) % s.providers.length }

/-- `AIProviderRotation.get_provider`: lazily roll the window over, then
scan at most `len(providers)` positions for an available provider. -/
def AIProviderRotation.get_provider (s : AIProviderRotation) (now : Nat) :
    String × AIProviderRotation :=
  let s1 := s._reset_if_needed now
  get_provider_loop s1.providers.length s1

/-- States reachable from a state `s0` by any sequence of `get_provider`
calls at arbitrary times. -/
inductive AIProviderRotation.ReachableFrom (s0 : AIProviderRotation) :
    AIProviderRotation → Prop
  | refl : ReachableFrom s0 s0
  | step (t : AIProviderRotation) (now : Nat) :
      ReachableFrom s0 t → ReachableFrom s0 (t.get_provider now).2

/-- The rate-limit invariant: every provider with a finite configured
limit has used at most that many requests in the current window. -/
def counts_within (s : AIProviderRotation) : Prop :=
  ∀ p m, dictGet p s.rate_limits = some (some m) → count_of s p ≤ m

theorem counts_within_of_zero (s : AIProviderRotation)
    (h : ∀ p, count_of s p = 0) : counts_within s := by
  intro p m _
  rw [h p]
  exact Nat.zero_le m

theorem dictGet_map_zero (l : List String) (p : String) :
    (dictGet p (l.map (fun q => (q, (0 : Nat))))).getD 0 = 0 := by
  induction l with
  | nil => rfl
  | cons hd tl ih =>
    by_cases hp : hd = p
    · simp [dictGet, hp]
    · simp only [List.map_cons, dictGet, if_neg hp]
      exact ih

/-- `_reset_if_needed` preserves the rate-limit invariant. -/
theorem counts_within_reset (s : AIProviderRotation) (now : Nat)
    (h : counts_within s) : counts_within (s._reset_if_needed now) := by
  unfold AIProviderRotation._reset_if_needed
  by_cases hstale : 60 < now - s.reset_time
  · rw [if_pos hstale]
    apply counts_within_of_zero
    intro p
    exact dictGet_map_zero s.providers p
  · rw [if_neg hstale]
    exact h

/-- The state written by the success branch of the scan loop keeps every
counter within its limit: the counter is incremented only after the
`< limit` check succeeded. -/
theorem counts_within_succ_state (s : AIProviderRotation) (provider : String)
    (hav : available s provider = true) (h : counts_within s) :
    counts_within
      { s with request_counts :=
          dictInsert provider (count_of s provider + 1) s.request_counts } := by
  intro p m hpm
  have hpm' : dictGet p s.rate_limits = some (some m) := hpm
  by_cases hp : p = provider
  · subst hp
    show (dictGet p (dictInsert p (count_of s p + 1) s.request_counts)).getD 0 ≤ m
    rw [dictGet_insert_same]
    have hlim : limit_of s p = some m := by
      unfold limit_of
      rw [hpm']
      rfl
    unfold available at hav
    rw [hlim] at hav
    simp only [countLt, decide_eq_true_eq] at hav
    show count_of s p + 1 ≤ m
    omega
  · show (dictGet p (dictInsert provider (count_of s provider + 1) s.request_counts)).getD 0 ≤ m
    rw [dictGet_insert_ne provider p _ s.request_counts hp]
    exact h p m hpm'

/-- The scan loop preserves the rate-limit invariant. -/
theorem counts_within_loop (fuel : Nat) :
    ∀ s : AIProviderRotation, counts_within s →
      counts_within (get_provider_loop fuel s).2 := by
  induction fuel with
  | zero => intro s h; exact h
  | succ fuel ih =>
    intro s h
    by_cases hav : available s (s.providers.getD s.current_index "") = true
    · have heq : (get_provider_loop (fuel + 1) s).2 =
          { s with request_counts := dictInsert (s.providers.getD s.current_index "") (count_of s (s.providers.getD s.current_index "") + 1) s.request_counts } := by
        simp only [get_provider_loop]
        rw [if_pos hav]
      rw [heq]
      exact counts_within_succ_state s _ hav h
    · have heq : (get_provider_loop (fuel + 1) s).2 =
          (get_provider_loop fuel
            { s with current_index := (s.current_index + 1) % s.providers.length }).2 := by
        simp only [get_provider_loop]
        rw [if_neg hav]
      rw [heq]
      apply ih
      intro p m hpm
      exact h p m hpm

/-! ## `AIProviderRotation.query` and the remote back-ends
(app.py lines 189-247)

The HTTP attempts of `_query_gemini` / `_query_grok` are modelled by an
explicit environment: whether each API key is configured, and the outcome
of the (at most one) HTTP attempt per remote provider — `ok text` for a
200 response with a well-formed body, `fail` for any exception, non-200
status or malformed body (all of which the source catches and treats as
fall-through). -/

inductive RemoteOutcome
  | ok (text : String)
  | fail
  deriving DecidableEq

structure ProviderEnv where
  gemini_key : Bool
  grok_key : Bool
  gemini : RemoteOutcome
  grok : RemoteOutcome
  deriving DecidableEq

/-- `AIProviderRotation._query_local`: the rule-based fallback, which
always returns a templated string (`prompt[:100]` is the first 100
characters). -/
def _query_local (prompt : String) : String :=
  "[Local Analysis] Further research needed for: " ++ prompt.take 100 ++ "..."

/-- `AIProviderRotation._query_grok`: missing key or any failed attempt
falls back to `_query_local`. -/
def _query_grok (env : ProviderEnv) (prompt : String) : String :=
  if env.grok_key then
    match env.grok with
    | RemoteOutcome.ok text => text
    | RemoteOutcome.fail => _query_local prompt
  else _query_local prompt

/-- `AIProviderRotation._query_gemini`: missing key falls back to
`_query_local`; a failed attempt falls through to `_query_grok`. -/
def _query_gemini (env : ProviderEnv) (prompt : String) : String :=
  if env.gemini_key then
    match env.gemini with
    | RemoteOutcome.ok text => text
    | RemoteOutcome.fail => _query_grok env prompt
  else _query_local prompt

/-- `AIProviderRotation.query`: pick a provider via `get_provider`, then
dispatch to the corresponding back-end. -/
def AIProviderRotation.query (s : AIProviderRotation) (env : ProviderEnv)
    (prompt : String) (now : Nat) : String × AIProviderRotation :=
  let r := s.get_provider now
  if r.1 = "gemini" then (_query_gemini env prompt, r.2)
  else if r.1 = "grok" then (_query_grok env prompt, r.2)
  else (_query_local prompt, r.2)

/-- On a cache hit, `get` rewrites the key's timestamp to `now`. -/
theorem Mem0Cache.get_times_hit {α : Type} (c : Mem0Cache α) (claim : String) (now : Nat)
    (v : α) (h : dictGet (_generate_key claim) c.cache = some v) :
    (c.get claim now).2.access_times =
      dictInsert (_generate_key claim) now c.access_times := by
  simp [Mem0Cache.get, h]

/-! ## Claim theorems -/

/-- Claim C1, counterexample: with `max_size = 0` a single `set` call
leaves the cache holding one key, which exceeds `max_size` — the eviction
runs on the empty `access_times` dict and removes nothing, and the insert
happens regardless. -/
theorem c1_counterexample :
    ((Mem0Cache.empty Nat 0).set "a" 7 0).max_size <
      ((Mem0Cache.empty Nat 0).set "a" 7 0).cache.length ∧
    ((Mem0Cache.empty Nat 0).set "a" 7 0).max_size = 0 := by
  decide

/-- Claim C1 (amended: for a cache constructed with a positive capacity):
after any sequence of `get`/`set` calls starting from an empty cache, the
cache holds at most `max_size` distinct keys (the key list has no
duplicates and its length is bounded by `max_size`). -/
theorem c1_cache_capacity {α : Type} (c : Mem0Cache α) (h : c.Reachable)
    (hm : 1 ≤ c.max_size) :
    c.cache.length ≤ c.max_size ∧ (keysOf c.cache).Nodup := by
  have hwf := Mem0Cache.wf_reachable c h
  exact ⟨hwf.2.2 hm, hwf.2.1⟩

theorem c1_cache_capacity_witness :
    ((Mem0Cache.empty Nat 2).set "a" 5 1).cache.length ≤
      ((Mem0Cache.empty Nat 2).set "a" 5 1).max_size ∧
    (keysOf ((Mem0Cache.empty Nat 2).set "a" 5 1).cache).Nodup :=
  c1_cache_capacity _
    (Mem0Cache.Reachable.set _ "a" 5 1 (Mem0Cache.Reachable.empty 2)) (by decide)

/-- Claim C5, counterexample: with a full cache of capacity 2 holding
`"a"` and `"b"`, `set "c"` once leaves 2 entries (`"b"`, `"c"`), but
`set "c"` twice leaves only 1 entry (`"c"`): the second `set` runs the
capacity check before looking at the key and evicts `"b"` even though
`"c"` is already stored, so `put;put` is observably different from `put`. -/
theorem c5_counterexample :
    (let c2 := ((Mem0Cache.empty Nat 2).set "a" 1 1).set "b" 2 2
     ((c2.set "c" 3 3).set "c" 3 4).cache.length ≠ (c2.set "c" 3 3).cache.length ∧
     keysOf ((c2.set "c" 3 3).set "c" 3 4).cache ≠ keysOf (c2.set "c" 3 3).cache) := by
  decide

/-- Claim C5 (amended: only when the cache is strictly below capacity
after the first `put`, so that the second `put`'s capacity check does not
trigger an eviction): `put(K,V); put(K,V)` is observably identical to a
single `put(K,V)` — the stored entries are exactly the same and the key
set of the timestamp map is unchanged (only the key's `last_accessed`
value is refreshed).  At capacity the second `put` additionally evicts
the oldest entry (see the counterexample). -/
theorem c5_put_idempotent_amended {α : Type} (c : Mem0Cache α) (K : String) (V : α)
    (t1 t2 : Nat) (h : (c.set K V t1).cache.length < (c.set K V t1).max_size) :
    ((c.set K V t1).set K V t2).cache = (c.set K V t1).cache ∧
    keysOf ((c.set K V t1).set K V t2).access_times = keysOf (c.set K V t1).access_times ∧
    ((c.set K V t1).set K V t2).max_size = (c.set K V t1).max_size := by
  set c1 := c.set K V t1 with hc1
  have hlt : ¬ c1.max_size ≤ c1.cache.length := Nat.not_le.mpr h
  have hgetV : dictGet (_generate_key K) c1.cache = some V := by
    rw [hc1]
    by_cases hc : c.max_size ≤ c.cache.length
    · rw [c.set_cache_of_ge K V t1 hc]
      exact dictGet_insert_same _ V _
    · rw [c.set_cache_of_lt K V t1 hc]
      exact dictGet_insert_same _ V _
  have hmemT : _generate_key K ∈ keysOf c1.access_times := by
    rw [hc1]
    by_cases hc : c.max_size ≤ c.cache.length
    · rw [c.set_times_of_ge K V t1 hc]
      exact mem_keys_dictInsert _ t1 _
    · rw [c.set_times_of_lt K V t1 hc]
      exact mem_keys_dictInsert _ t1 _
  refine ⟨?_, ?_, ?_⟩
  · rw [c1.set_cache_of_lt K V t2 hlt]
    exact dictInsert_eq_self _ V c1.cache hgetV
  · rw [c1.set_times_of_lt K V t2 hlt]
    exact keys_dictInsert_mem _ t2 c1.access_times hmemT
  · exact c1.max_size_set K V t2

theorem c5_put_idempotent_amended_witness :
    (((Mem0Cache.empty Nat 3).set "k" 5 0).set "k" 5 1).cache =
      ((Mem0Cache.empty Nat 3).set "k" 5 0).cache ∧
    keysOf (((Mem0Cache.empty Nat 3).set "k" 5 0).set "k" 5 1).access_times =
      keysOf ((Mem0Cache.empty Nat 3).set "k" 5 0).access_times ∧
    (((Mem0Cache.empty Nat 3).set "k" 5 0).set "k" 5 1).max_size =
      ((Mem0Cache.empty Nat 3).set "k" 5 0).max_size :=
  c5_put_idempotent_amended (Mem0Cache.empty Nat 3) "k" 5 0 1 (by decide)

/-- Claim C7: on a cache of capacity 2 with strictly increasing
timestamps, `put A; put B; get A; put C` (three distinct normalized keys)
evicts `B` — the entry with the oldest `last_accessed` — leaving exactly
the keys of `A` and `C`; and in general `oldestEntry` (the eviction
choice `min(access_times, key=access_times.get)`) returns an entry of the
dict whose timestamp is minimal among all entries. -/
theorem c7_lru_eviction (A B C : String) (vA vB vC : Nat) (t1 t2 t3 t4 : Nat)
    (hAB : _generate_key A ≠ _generate_key B)
    (hAC : _generate_key A ≠ _generate_key C)
    (hBC : _generate_key B ≠ _generate_key C)
    (h12 : t1 < t2) (h23 : t2 < t3) (h34 : t3 < t4) :
    keysOf ((((((Mem0Cache.empty Nat 2).set A vA t1).set B vB t2).get A t3).2).set C vC t4).cache =
      [_generate_key A, _generate_key C] ∧
    (∀ (l : List (String × Nat)) (k : String) (t : Nat),
      oldestEntry l = some (k, t) → (k, t) ∈ l ∧ ∀ q ∈ l, t ≤ q.2) := by
  refine ⟨?_, fun l k t hl => ⟨oldestEntry_mem hl, oldestEntry_min hl⟩⟩
  set c0 : Mem0Cache Nat := Mem0Cache.empty Nat 2 with hc0def
  -- state after `set A`
  have hc0 : ¬ c0.max_size ≤ c0.cache.length := by rw [hc0def]; decide
  have h1c : (c0.set A vA t1).cache = [(_generate_key A, vA)] := by
    rw [c0.set_cache_of_lt A vA t1 hc0]
    rfl
  have h1t : (c0.set A vA t1).access_times = [(_generate_key A, t1)] := by
    rw [c0.set_times_of_lt A vA t1 hc0]
    rfl
  have h1m : (c0.set A vA t1).max_size = 2 := by rw [c0.max_size_set A vA t1, hc0def]; rfl
  set c1 := c0.set A vA t1 with hc1def
  -- state after `set B`
  have hc1 : ¬ c1.max_size ≤ c1.cache.length := by rw [h1m, h1c]; simp
  have h2c : c1.set B vB t2 = c1.set B vB t2 := rfl
  have h2c' : (c1.set B vB t2).cache =
      [(_generate_key A, vA), (_generate_key B, vB)] := by
    rw [c1.set_cache_of_lt B vB t2 hc1, h1c]
    simp [dictInsert, hAB]
  have h2t : (c1.set B vB t2).access_times =
      [(_generate_key A, t1), (_generate_key B, t2)] := by
    rw [c1.set_times_of_lt B vB t2 hc1, h1t]
    simp [dictInsert, hAB]
  have h2m : (c1.set B vB t2).max_size = 2 := by rw [c1.max_size_set B vB t2, h1m]
  set c2 := c1.set B vB t2 with hc2def
  -- state after `get A`
  have hgA : dictGet (_generate_key A) c2.cache = some vA := by
    rw [h2c']
    simp [dictGet]
  have h3c : ((c2.get A t3).2).cache =
      [(_generate_key A, vA), (_generate_key B, vB)] := by
    rw [c2.get_cache A t3, h2c']
  have h3t : ((c2.get A t3).2).access_times =
      [(_generate_key A, t3), (_generate_key B, t2)] := by
    rw [c2.get_times_hit A t3 vA hgA, h2t]
    simp [dictInsert]
  have h3m : ((c2.get A t3).2).max_size = 2 := by rw [c2.get_max_size A t3, h2m]
  set c3 := (c2.get A t3).2 with hc3def
  -- state after `set C`: the capacity check fires and evicts B
  have hc3 : c3.max_size ≤ c3.cache.length := by rw [h3m, h3c]; simp
  have hnle : ¬ t3 ≤ t2 := Nat.not_le.mpr h23
  have ho : oldestEntry c3.access_times = some (_generate_key B, t2) := by
    rw [h3t]
    simp [oldestEntry, hnle]
  have hec : c3._evict_oldest.cache = [(_generate_key A, vA)] := by
    rw [c3.evict_cache_of_oldest _ t2 ho, h3c]
    simp [dictErase, hAB]
  have h4c : (c3.set C vC t4).cache =
      [(_generate_key A, vA), (_generate_key C, vC)] := by
    rw [c3.set_cache_of_ge C vC t4 hc3, hec]
    simp [dictInsert, hAC]
  rw [h4c]
  rfl

theorem c7_lru_eviction_witness :
    keysOf ((((((Mem0Cache.empty Nat 2).set "a" 1 1).set "b" 2 2).get "a" 3).2).set "c" 3 4).cache =
      [_generate_key "a", _generate_key "c"] ∧
    ("y", 3) ∈ [("x", (5 : Nat)), ("y", 3)] :=
  ⟨(c7_lru_eviction "a" "b" "c" 1 2 3 1 2 3 4 (by decide) (by decide) (by decide)
      (by decide) (by decide) (by decide)).1,
   ((c7_lru_eviction "a" "b" "c" 1 2 3 1 2 3 4 (by decide) (by decide) (by decide)
      (by decide) (by decide) (by decide)).2 [("x", 5), ("y", 3)] "y" 3 (by decide)).1⟩

/-- Claim C9: on every state reachable from the empty cache, the value
map and the timestamp map hold exactly the same set of keys. -/
theorem c9_keys_sync {α : Type} (c : Mem0Cache α) (h : c.Reachable) :
    ∀ k, k ∈ keysOf c.cache ↔ k ∈ keysOf c.access_times := by
  have hwf := Mem0Cache.wf_reachable c h
  intro k
  rw [hwf.1]

theorem c9_keys_sync_witness :
    ("a" ∈ keysOf ((Mem0Cache.empty Nat 3).set "a" 1 0).cache ↔
      "a" ∈ keysOf ((Mem0Cache.empty Nat 3).set "a" 1 0).access_times) :=
  c9_keys_sync _ (Mem0Cache.Reachable.set _ "a" 1 0 (Mem0Cache.Reachable.empty 3)) "a"

/-- Claim C10: when the normalized fingerprint of the requested key is not
stored, `get` returns `none` and the resulting state is exactly the input
state — no entry, value, timestamp or size changes. -/
theorem c10_get_miss_frame {α : Type} (c : Mem0Cache α) (claim : String) (now : Nat)
    (h : _generate_key claim ∉ keysOf c.cache) :
    (c.get claim now).1 = none ∧ (c.get claim now).2 = c := by
  have hg : dictGet (_generate_key claim) c.cache = none :=
    dictGet_eq_none_of_not_mem _ c.cache h
  constructor <;> simp [Mem0Cache.get, hg]

theorem c10_get_miss_frame_witness :
    (((Mem0Cache.empty Nat 5).set "x" 1 0).get "y" 1).1 = none ∧
    (((Mem0Cache.empty Nat 5).set "x" 1 0).get "y" 1).2 =
      (Mem0Cache.empty Nat 5).set "x" 1 0 :=
  c10_get_miss_frame _ "y" 1 (by decide)

/-! ## Helper lemmas and example states for the rotator claims -/

theorem reset_providers (s : AIProviderRotation) (now : Nat) :
    (s._reset_if_needed now).providers = s.providers := by
  unfold AIProviderRotation._reset_if_needed
  split <;> rfl

theorem reset_index (s : AIProviderRotation) (now : Nat) :
    (s._reset_if_needed now).current_index = s.current_index := by
  unfold AIProviderRotation._reset_if_needed
  split <;> rfl

theorem reset_of_fresh (s : AIProviderRotation) (now : Nat)
    (h : ¬ 60 < now - s.reset_time) : s._reset_if_needed now = s := by
  unfold AIProviderRotation._reset_if_needed
  rw [if_neg h]

theorem reset_of_stale (s : AIProviderRotation) (now : Nat)
    (h : 60 < now - s.reset_time) :
    s._reset_if_needed now =
      { s with request_counts := s.providers.map (fun p => (p, 0)), reset_time := now } := by
  unfold AIProviderRotation._reset_if_needed
  rw [if_pos h]

theorem loop_step_exhausted (fuel : Nat) (s : AIProviderRotation)
    (h : ¬ available s (s.providers.getD s.current_index "") = true) :
    get_provider_loop (fuel + 1) s =
      get_provider_loop fuel
        { s with current_index := (s.current_index + 1) % s.providers.length } := by
  simp only [get_provider_loop]
  rw [if_neg h]

theorem loop_step_available (fuel : Nat) (s : AIProviderRotation)
    (h : available s (s.providers.getD s.current_index "") = true) :
    get_provider_loop (fuel + 1) s =
      (s.providers.getD s.current_index "", { s with request_counts := dictInsert (s.providers.getD s.current_index "") (count_of s (s.providers.getD s.current_index "") + 1) s.request_counts }) := by
  simp only [get_provider_loop]
  rw [if_pos h]

/-- A rotator configured with a single remote provider of limit 1 plus
the local fallback (the spec §8 exhaustion scenario). -/
def limitOneState : AIProviderRotation :=
  { providers := ["p1", "local"]
    current_index := 0
    request_counts := [("p1", 0), ("local", 0)]
    rate_limits := [("p1", some 1), ("local", none)]
    reset_time := 0 }

/-- A rotator in the source's configuration with both remote providers
exhausted for the current window. -/
def exhaustedState : AIProviderRotation :=
  { providers := ["gemini", "grok", "local"]
    current_index := 0
    request_counts := [("gemini", 60), ("grok", 100), ("local", 5)]
    rate_limits := [("gemini", some 60), ("grok", some 100), ("local", none)]
    reset_time := 0 }

/-- Claim C2: starting from any state whose counters are within the
configured limits (in particular any freshly constructed rotator, whose
counters are all zero), after any sequence of `get_provider` calls every
provider with a finite limit `m` has `request_counts[p] ≤ m`; the local
fallback's `float("inf")` limit is unconstrained. -/
theorem c2_rate_limit_invariant (s0 s : AIProviderRotation)
    (h0 : counts_within s0) (h : AIProviderRotation.ReachableFrom s0 s) :
    counts_within s := by
  induction h with
  | refl => exact h0
  | step t now _ ih =>
    show counts_within
      (get_provider_loop (t._reset_if_needed now).providers.length (t._reset_if_needed now)).2
    exact counts_within_loop _ _ (counts_within_reset t now ih)

/-- Witness for C2, instantiating the spec's "a provider with limit 1 is
used at most once per window": after two back-to-back `get_provider`
calls in the same window, `p1`'s counter is still at most 1. -/
theorem c2_rate_limit_invariant_witness :
    count_of ((limitOneState.get_provider 0).2.get_provider 0).2 "p1" ≤ 1 :=
  c2_rate_limit_invariant limitOneState _
    (counts_within_of_zero _ (fun p => dictGet_map_zero ["p1", "local"] p))
    (AIProviderRotation.ReachableFrom.step _ 0
      (AIProviderRotation.ReachableFrom.step _ 0 AIProviderRotation.ReachableFrom.refl))
    "p1" 1 (by decide)

/-- Claim C3, counterexample: on a fresh rotator the first call selects
`"gemini"`, the provider at rotation position 0, but `current_index`
remains 0 after the call instead of advancing to `(0 + 1) % 3 = 1`: the
success branch of `get_provider` never moves the cursor. -/
theorem c3_counterexample :
    ((AIProviderRotation.init 0).get_provider 0).1 = "gemini" ∧
    (AIProviderRotation.init 0).providers.getD 0 "" = "gemini" ∧
    ((AIProviderRotation.init 0).get_provider 0).2.current_index = 0 ∧
    (0 + 1) % (AIProviderRotation.init 0).providers.length ≠ 0 := by
  decide

/-- Claim C3 (amended): when the provider at the current cursor position
is available (after the lazy window rollover), `get_provider` returns it
and leaves `current_index` unchanged — the cursor stays at the selected
provider's position and the next call re-checks the same provider; it
advances only while skipping exhausted providers. -/
theorem c3_cursor_amended (s : AIProviderRotation) (now : Nat)
    (hne : s.providers ≠ [])
    (hav : available (s._reset_if_needed now) (s.providers.getD s.current_index "") = true) :
    (s.get_provider now).1 = s.providers.getD s.current_index "" ∧
    (s.get_provider now).2.current_index = s.current_index := by
  set s1 := s._reset_if_needed now with hs1
  have hp : s1.providers = s.providers := reset_providers s now
  have hi : s1.current_index = s.current_index := reset_index s now
  have hprov1 : s1.providers.getD s1.current_index "" = s.providers.getD s.current_index "" := by
    rw [hp, hi]
  have hav1 : available s1 (s1.providers.getD s1.current_index "") = true := by
    rw [hprov1]
    exact hav
  obtain ⟨n, hn⟩ : ∃ n, s1.providers.length = n + 1 := by
    rw [hp]
    cases hL : s.providers.length with
    | zero => exact absurd (List.length_eq_zero.mp hL) hne
    | succ n => exact ⟨n, rfl⟩
  have hgp : s.get_provider now = get_provider_loop s1.providers.length s1 := rfl
  rw [hgp, hn, loop_step_available n s1 hav1]
  exact ⟨hprov1, hi⟩

theorem c3_cursor_amended_witness :
    ((AIProviderRotation.init 0).get_provider 0).1 =
      (AIProviderRotation.init 0).providers.getD (AIProviderRotation.init 0).current_index "" ∧
    ((AIProviderRotation.init 0).get_provider 0).2.current_index =
      (AIProviderRotation.init 0).current_index :=
  c3_cursor_amended (AIProviderRotation.init 0) 0 (by decide) (by decide)

/-- Claim C4, counterexample: with both remote providers exhausted,
`get_provider` does return `"local"`, but it reaches it through the
normal success branch and therefore increments `request_counts["local"]`
— the request counts are not all unchanged by the call. -/
theorem c4_counterexample :
    (exhaustedState.get_provider 0).1 = "local" ∧
    count_of (exhaustedState.get_provider 0).2 "local" = count_of exhaustedState "local" + 1 ∧
    count_of (exhaustedState.get_provider 0).2 "local" ≠ count_of exhaustedState "local" := by
  decide

/-- Claim C4 (amended): whenever both remote providers are exhausted for
the current window (and the window is not yet stale), `get_provider`
returns `"local"`, leaves the remote providers' counters unchanged, and
increments only the local fallback's own counter. -/
theorem c4_exhausted_fallback_amended (s : AIProviderRotation) (now : Nat)
    (hp : s.providers = ["gemini", "grok", "local"])
    (hl : s.rate_limits = [("gemini", some 60), ("grok", some 100), ("local", (none : Option Nat))])
    (hg : 60 ≤ count_of s "gemini")
    (hk : 100 ≤ count_of s "grok")
    (hfresh : ¬ 60 < now - s.reset_time)
    (hi : s.current_index < 3) :
    (s.get_provider now).1 = "local" ∧
    count_of (s.get_provider now).2 "gemini" = count_of s "gemini" ∧
    count_of (s.get_provider now).2 "grok" = count_of s "grok" ∧
    count_of (s.get_provider now).2 "local" = count_of s "local" + 1 := by
  have hgp : s.get_provider now = get_provider_loop s.providers.length s := by
    unfold AIProviderRotation.get_provider
    rw [reset_of_fresh s now hfresh]
  have hlen : s.providers.length = 3 := by rw [hp]; rfl
  have hG : available s "gemini" = false := by
    have hlm : limit_of s "gemini" = some 60 := by
      unfold limit_of
      rw [hl]
      decide
    unfold available
    rw [hlm]
    simp only [countLt, decide_eq_false_iff_not]
    omega
  have hK : available s "grok" = false := by
    have hlm : limit_of s "grok" = some 100 := by
      unfold limit_of
      rw [hl]
      decide
    unfold available
    rw [hlm]
    simp only [countLt, decide_eq_false_iff_not]
    omega
  have hL : available s "local" = true := by
    have hlm : limit_of s "local" = none := by
      unfold limit_of
      rw [hl]
      decide
    unfold available
    rw [hlm]
    rfl
  have hfin : s.get_provider now = ("local", { s with current_index := 2, request_counts := dictInsert "local" (count_of s "local" + 1) s.request_counts }) := by
    have h0 : s.current_index = 0 ∨ s.current_index = 1 ∨ s.current_index = 2 := by omega
    rcases h0 with h0 | h0 | h0
    · -- scan: gemini exhausted, grok exhausted, local selected
      have hcond0 : ¬ available s (s.providers.getD s.current_index "") = true := by
        rw [hp, h0]
        show ¬ available s "gemini" = true
        rw [hG]
        simp
      have e1 : get_provider_loop 3 s = get_provider_loop 2 { s with current_index := 1 } := by
        rw [loop_step_exhausted 2 s hcond0]
        have : ({ s with current_index := (s.current_index + 1) % s.providers.length } :
            AIProviderRotation) = { s with current_index := 1 } := by
          rw [h0, hp]
          rfl
        rw [this]
      have hcond1 : ¬ available ({ s with current_index := 1 } : AIProviderRotation)
          (({ s with current_index := 1 } : AIProviderRotation).providers.getD
            ({ s with current_index := 1 } : AIProviderRotation).current_index "") = true := by
        show ¬ available s (s.providers.getD 1 "") = true
        rw [hp]
        show ¬ available s "grok" = true
        rw [hK]
        simp
      have e2 : get_provider_loop 2 ({ s with current_index := 1 } : AIProviderRotation) =
          get_provider_loop 1 { s with current_index := 2 } := by
        rw [loop_step_exhausted 1 _ hcond1]
        have : ({ { s with current_index := 1 } with current_index := (({ s with current_index := 1 } : AIProviderRotation).current_index + 1) % ({ s with current_index := 1 } : AIProviderRotation).providers.length } : AIProviderRotation) = { s with current_index := 2 } := by
          show ({ s with current_index := (1 + 1) % s.providers.length } :
            AIProviderRotation) = { s with current_index := 2 }
          rw [hp]
          rfl
        rw [this]
      have hcond2 : available ({ s with current_index := 2 } : AIProviderRotation)
          (({ s with current_index := 2 } : AIProviderRotation).providers.getD
            ({ s with current_index := 2 } : AIProviderRotation).current_index "") = true := by
        show available s (s.providers.getD 2 "") = true
        rw [hp]
        exact hL
      rw [hgp, hlen, e1, e2, loop_step_available 0 _ hcond2]
      rw [hp]
      rfl
    · -- scan: grok exhausted, local selected
      have hcond1 : ¬ available s (s.providers.getD s.current_index "") = true := by
        rw [hp, h0]
        show ¬ available s "grok" = true
        rw [hK]
        simp
      have e2 : get_provider_loop 3 s = get_provider_loop 2 { s with current_index := 2 } := by
        rw [loop_step_exhausted 2 s hcond1]
        have : ({ s with current_index := (s.current_index + 1) % s.providers.length } :
            AIProviderRotation) = { s with current_index := 2 } := by
          rw [h0, hp]
          rfl
        rw [this]
      have hcond2 : available ({ s with current_index := 2 } : AIProviderRotation)
          (({ s with current_index := 2 } : AIProviderRotation).providers.getD
            ({ s with current_index := 2 } : AIProviderRotation).current_index "") = true := by
        show available s (s.providers.getD 2 "") = true
        rw [hp]
        exact hL
      rw [hgp, hlen, e2, loop_step_available 1 _ hcond2]
      rw [hp]
      rfl
    · -- local selected immediately
      have hcond2 : available s (s.providers.getD s.current_index "") = true := by
        rw [hp, h0]
        exact hL
      rw [hgp, hlen, show (3 : Nat) = 2 + 1 from rfl, loop_step_available 2 s hcond2, h0, hp]
      rfl
  refine ⟨?_, ?_, ?_, ?_⟩
  · rw [hfin]
  · rw [hfin]
    show (dictGet "gemini" (dictInsert "local" (count_of s "local" + 1) s.request_counts)).getD 0 =
      count_of s "gemini"
    rw [dictGet_insert_ne "local" "gemini" _ s.request_counts (by decide)]
    rfl
  · rw [hfin]
    show (dictGet "grok" (dictInsert "local" (count_of s "local" + 1) s.request_counts)).getD 0 =
      count_of s "grok"
    rw [dictGet_insert_ne "local" "grok" _ s.request_counts (by decide)]
    rfl
  · rw [hfin]
    show (dictGet "local" (dictInsert "local" (count_of s "local" + 1) s.request_counts)).getD 0 =
      count_of s "local" + 1
    rw [dictGet_insert_same]
    rfl

theorem c4_exhausted_fallback_amended_witness :
    (exhaustedState.get_provider 0).1 = "local" ∧
    count_of (exhaustedState.get_provider 0).2 "gemini" = count_of exhaustedState "gemini" ∧
    count_of (exhaustedState.get_provider 0).2 "grok" = count_of exhaustedState "grok" ∧
    count_of (exhaustedState.get_provider 0).2 "local" = count_of exhaustedState "local" + 1 :=
  c4_exhausted_fallback_amended exhaustedState 0 (by decide) (by decide) (by decide)
    (by decide) (by decide) (by decide)

/-- Claim C8, counterexample: `_reset_if_needed` sets `reset_time` to the
current time (`datetime.now()`), not to the previous `window_start` plus
one window duration: starting from `reset_time = 0`, a rollover at time
200 yields `reset_time = 200`, not `0 + 60`. -/
theorem c8_counterexample :
    60 < 200 - (AIProviderRotation.init 0).reset_time ∧
    ((AIProviderRotation.init 0)._reset_if_needed 200).reset_time = 200 ∧
    ((AIProviderRotation.init 0)._reset_if_needed 200).reset_time ≠
      (AIProviderRotation.init 0).reset_time + 60 := by
  decide

/-- Claim C8 (amended): when the window is stale (more than 60 seconds
old), the rollover zeroes every usage counter and sets `window_start`
(`reset_time`) to the current time — advancing it by the full elapsed
time, not by exactly one window duration; afterwards each provider's
availability is exactly that of a zero counter against its (unchanged)
limit, so any exhausted provider with a positive or infinite limit is
available again without manual reset. -/
theorem c8_window_rollover_amended (s : AIProviderRotation) (now : Nat)
    (h : 60 < now - s.reset_time) :
    (s._reset_if_needed now).reset_time = now ∧
    (∀ p, count_of (s._reset_if_needed now) p = 0) ∧
    (∀ p, available (s._reset_if_needed now) p = countLt 0 (limit_of s p)) := by
  rw [reset_of_stale s now h]
  refine ⟨rfl, ?_, ?_⟩
  · intro p
    show (dictGet p (s.providers.map (fun q => (q, 0)))).getD 0 = 0
    exact dictGet_map_zero s.providers p
  · intro p
    show countLt ((dictGet p (s.providers.map (fun q => (q, 0)))).getD 0)
        ((dictGet p s.rate_limits).getD (some 0)) =
      countLt 0 ((dictGet p s.rate_limits).getD (some 0))
    rw [dictGet_map_zero s.providers p]

/-- Witness for the amended C8: the fully exhausted `gemini` provider
(60/60 used) becomes available again after a rollover at time 100. -/
theorem c8_window_rollover_amended_witness :
    (exhaustedState._reset_if_needed 100).reset_time = 100 ∧
    count_of (exhaustedState._reset_if_needed 100) "gemini" = 0 ∧
    available (exhaustedState._reset_if_needed 100) "gemini" =
      countLt 0 (limit_of exhaustedState "gemini") :=
  ⟨(c8_window_rollover_amended exhaustedState 100 (by decide)).1,
   (c8_window_rollover_amended exhaustedState 100 (by decide)).2.1 "gemini",
   (c8_window_rollover_amended exhaustedState 100 (by decide)).2.2 "gemini"⟩

/-! ## Claim C6: `query` never fails -/

theorem _query_grok_cases (env : ProviderEnv) (prompt : String) :
    (∃ text, env.grok = RemoteOutcome.ok text ∧ _query_grok env prompt = text) ∨
    _query_grok env prompt = _query_local prompt := by
  by_cases hk : env.grok_key
  · rcases hg : env.grok with text | _
    · exact Or.inl ⟨text, rfl, by simp [_query_grok, hk, hg]⟩
    · exact Or.inr (by simp [_query_grok, hk, hg])
  · exact Or.inr (by simp [_query_grok, hk])

theorem _query_grok_of_fail (env : ProviderEnv) (prompt : String)
    (h : env.grok = RemoteOutcome.fail) :
    _query_grok env prompt = _query_local prompt := by
  by_cases hk : env.grok_key <;> simp [_query_grok, hk, h]

theorem _query_gemini_cases (env : ProviderEnv) (prompt : String) :
    (∃ text, env.gemini = RemoteOutcome.ok text ∧ _query_gemini env prompt = text) ∨
    (∃ text, env.grok = RemoteOutcome.ok text ∧ _query_gemini env prompt = text) ∨
    _query_gemini env prompt = _query_local prompt := by
  by_cases hk : env.gemini_key
  · rcases hg : env.gemini with text | _
    · exact Or.inl ⟨text, rfl, by simp [_query_gemini, hk, hg]⟩
    · have hfall : _query_gemini env prompt = _query_grok env prompt := by
        simp [_query_gemini, hk, hg]
      rcases _query_grok_cases env prompt with ⟨text, h1, h2⟩ | h1
      · exact Or.inr (Or.inl ⟨text, h1, by rw [hfall, h2]⟩)
      · exact Or.inr (Or.inr (by rw [hfall, h1]))
  · exact Or.inr (Or.inr (by simp [_query_gemini, hk]))

theorem _query_gemini_of_fail (env : ProviderEnv) (prompt : String)
    (h1 : env.gemini = RemoteOutcome.fail) (h2 : env.grok = RemoteOutcome.fail) :
    _query_gemini env prompt = _query_local prompt := by
  have hg := _query_grok_of_fail env prompt h2
  by_cases hk : env.gemini_key <;> simp [_query_gemini, hk, h1, hg]

/-- Claim C6: for every rotator state, every pattern of remote failures
(missing API keys, transport errors, non-200 statuses, malformed bodies)
and every prompt, `query` returns a response string: either the text of a
successful remote attempt or the local fallback's template.  In
particular, when both remote attempts fail, the local fallback — which
always succeeds by construction — produces the response; no error is ever
propagated to the caller. -/
theorem c6_query_never_fails (s : AIProviderRotation) (env : ProviderEnv)
    (prompt : String) (now : Nat) :
    ((∃ text, env.gemini = RemoteOutcome.ok text ∧ (s.query env prompt now).1 = text) ∨
     (∃ text, env.grok = RemoteOutcome.ok text ∧ (s.query env prompt now).1 = text) ∨
     (s.query env prompt now).1 = _query_local prompt) ∧
    (env.gemini = RemoteOutcome.fail → env.grok = RemoteOutcome.fail →
      (s.query env prompt now).1 = _query_local prompt) := by
  constructor
  · by_cases h1 : (s.get_provider now).1 = "gemini"
    · have hq : (s.query env prompt now).1 = _query_gemini env prompt := by
        unfold AIProviderRotation.query
        rw [if_pos h1]
      rcases _query_gemini_cases env prompt with ⟨text, ha, hb⟩ | ⟨text, ha, hb⟩ | hb
      · exact Or.inl ⟨text, ha, by rw [hq, hb]⟩
      · exact Or.inr (Or.inl ⟨text, ha, by rw [hq, hb]⟩)
      · exact Or.inr (Or.inr (by rw [hq, hb]))
    · by_cases h2 : (s.get_provider now).1 = "grok"
      · have hq : (s.query env prompt now).1 = _query_grok env prompt := by
          unfold AIProviderRotation.query
          rw [if_neg h1, if_pos h2]
        rcases _query_grok_cases env prompt with ⟨text, ha, hb⟩ | hb
        · exact Or.inr (Or.inl ⟨text, ha, by rw [hq, hb]⟩)
        · exact Or.inr (Or.inr (by rw [hq, hb]))
      · have hq : (s.query env prompt now).1 = _query_local prompt := by
          unfold AIProviderRotation.query
          rw [if_neg h1, if_neg h2]
        exact Or.inr (Or.inr hq)
  · intro hgf hkf
    by_cases h1 : (s.get_provider now).1 = "gemini"
    · unfold AIProviderRotation.query
      rw [if_pos h1]
      exact _query_gemini_of_fail env prompt hgf hkf
    · by_cases h2 : (s.get_provider now).1 = "grok"
      · unfold AIProviderRotation.query
        rw [if_neg h1, if_pos h2]
        exact _query_grok_of_fail env prompt hkf
      · unfold AIProviderRotation.query
        rw [if_neg h1, if_neg h2]

/-- An environment in which both API keys are configured but both remote
attempts fail. -/
def allFailEnv : ProviderEnv :=
  { gemini_key := true
    grok_key := true
    gemini := RemoteOutcome.fail
    grok := RemoteOutcome.fail }

theorem c6_query_never_fails_witness :
    ((AIProviderRotation.init 0).query allFailEnv "is the sky blue" 0).1 =
      _query_local "is the sky blue" :=
  (c6_query_never_fails (AIProviderRotation.init 0) allFailEnv "is the sky blue" 0).2 rfl rfl

end OrbitV3
